import Mathlib

/-!
# Community Cloud WAN: the arithmetic of `main` in `community-cloud-wan.cc`

The program is one `main` that configures an ns-3 scenario, runs it, and then folds the
flow monitor's per-flow statistics into a printed summary.  The development below embeds

* the application start/stop requests and the final `Simulator::Stop` request
  (source lines 276-323 and 394),
* the subnet base strings built for the access links (source lines 224-263),
* the statistics loop and the summary lines printed after it (source lines 409-445).

Conventions of the embedding.

* `uint64_t` and `uint32_t` values are natural numbers reduced modulo `2^64` and `2^32`.
* A C++ `double` in the summary is idealised: its finite values are exact rationals, and a
  value that is not finite (the result of dividing by zero, and everything computed from it)
  is `nonFinite`.  Rounding is not modelled there.
* The loss-rate line is embedded a second time, `lossRateBinary64`, with every conversion,
  product and quotient rounded as IEEE 754 binary64 does (to nearest, ties to even).
* The ns-3 library is not part of the program.  Whether its calls return to `main`, and the
  statistics it hands back after the run, are an input of the embedding (`Library`).
* The `std::map` returned by `GetFlowStats` is the list of its entries in key order, which
  is the order in which the loop visits them.
-/

namespace CommunityCloudWAN

/-! ## Idealised doubles -/

/-- A C++ double: `finite q` is the finite value `q`, `nonFinite` is an infinity or a NaN. -/
inductive Double where
  | finite (q : ℚ)
  | nonFinite
deriving DecidableEq

/-- Conversion of an unsigned integer to a double. -/
def Double.ofNat (n : Nat) : Double := .finite (n : ℚ)

/-- Sum of two doubles. -/
def Double.add (a b : Double) : Double :=
  match a, b with
  | .finite x, .finite y => .finite (x + y)
  | _, _ => .nonFinite

/-- Product of a double with a finite double. -/
def Double.mul (a : Double) (c : ℚ) : Double :=
  match a with
  | .finite x => .finite (x * c)
  | .nonFinite => .nonFinite

/-- Quotient of a double by a finite double; a zero divisor gives a value that is not finite. -/
def Double.div (a : Double) (b : ℚ) : Double :=
  match a with
  | .finite x => if b = 0 then .nonFinite else .finite (x / b)
  | .nonFinite => .nonFinite

/-! ## Binary64 rounding -/

/-- Rounding of a rational to the nearest integer, a tie going to the even neighbour. -/
def roundHalfEven (x : ℚ) : ℤ :=
  if x - ⌊x⌋ < 1 / 2 then ⌊x⌋
  else if 1 / 2 < x - ⌊x⌋ then ⌊x⌋ + 1
  else if ⌊x⌋ % 2 = 0 then ⌊x⌋
  else ⌊x⌋ + 1

/-- Exponent of the last mantissa bit of the binary64 numbers next to `x >= 0`: 52 below the
binary exponent of `x`, and never below that of the subnormal numbers. -/
def binary64Exponent (x : ℚ) : ℤ := max (Int.log 2 x - 52) (-1074)

/-- The multiple of `2 ^ binary64Exponent x` nearest to `x >= 0`, ties to even. -/
def roundMagnitude (x : ℚ) : ℚ :=
  (roundHalfEven (x / 2 ^ binary64Exponent x) : ℚ) * 2 ^ binary64Exponent x

/-- IEEE 754 binary64 rounding of a rational (to nearest, ties to even); a magnitude that
rounds to `2^1024` or more overflows to an infinity. -/
def roundBinary64 (x : ℚ) : Double :=
  if 2 ^ 1024 ≤ roundMagnitude |x| then .nonFinite
  else .finite (if x < 0 then -roundMagnitude |x| else roundMagnitude |x|)

/-- Conversion of a `uint64_t` to binary64; the result is always finite. -/
def Binary64.ofUInt64 (n : Nat) : ℚ := roundMagnitude n

/-- Binary64 product of two finite doubles. -/
def Binary64.mul (x y : ℚ) : Double := roundBinary64 (x * y)

/-- Binary64 quotient of a double by a finite double. -/
def Binary64.div (a : Double) (b : ℚ) : Double :=
  match a with
  | .finite x => if b = 0 then .nonFinite else roundBinary64 (x / b)
  | .nonFinite => .nonFinite

/-! ## Flow statistics -/

/-- The ns-3 `Time` of a delay sum, seen through the only accessor the program uses. -/
structure Time where
  /-- The value of `GetSeconds()`. -/
  GetSeconds : ℚ
deriving DecidableEq

/-- The fields of `FlowMonitor::FlowStats` read by the statistics loop. -/
structure FlowStats where
  txPackets : Nat
  rxPackets : Nat
  rxBytes : Nat
  delaySum : Time
deriving DecidableEq

/-- A flow identifier. -/
abbrev FlowId := Nat

/-- The map `stats`, as its entries in iteration order. -/
abbrev FlowMap := List (FlowId × FlowStats)

/-- Wrap-around of `uint64_t`. -/
def U64 : Nat := 2 ^ 64

/-- Wrap-around of `uint32_t`. -/
def U32 : Nat := 2 ^ 32

/-- Subtraction of two `uint64_t` values. -/
def sub64 (a b : Nat) : Nat := (a + U64 - b % U64) % U64

/-- The local variables of `main` that the statistics loop updates (source lines 409-412). -/
structure Totals where
  totalTx : Nat
  totalRx : Nat
  totalThroughput : Double
  totalDelay : Double
  flowCount : Nat

/-- The initial values of the loop variables. -/
def Totals.init : Totals :=
  { totalTx := 0
    totalRx := 0
    totalThroughput := .finite 0
    totalDelay := .finite 0
    flowCount := 0 }

/-- One iteration of the statistics loop (source lines 417-425). -/
def loopBody (simulationTime : ℚ) (t : Totals) (f : FlowStats) : Totals :=
  let totalTx := (t.totalTx + f.txPackets) % U64
  let totalRx := (t.totalRx + f.rxPackets) % U64
  let totalThroughput :=
    Double.add t.totalThroughput
      (Double.div (Double.div (Double.mul (Double.ofNat f.rxBytes) 8.0) simulationTime) 1000.0)
  if f.rxPackets > 0 then
    { totalTx := totalTx
      totalRx := totalRx
      totalThroughput := totalThroughput
      totalDelay :=
        Double.add t.totalDelay (Double.div (.finite f.delaySum.GetSeconds) f.rxPackets)
      flowCount := (t.flowCount + 1) % U32 }
  else
    { totalTx := totalTx
      totalRx := totalRx
      totalThroughput := totalThroughput
      totalDelay := t.totalDelay
      flowCount := t.flowCount }

/-- The statistics loop over the whole map (source lines 414-426). -/
def statsLoop (simulationTime : ℚ) (stats : FlowMap) : Totals :=
  stats.foldl (fun t kv => loopBody simulationTime t kv.2) Totals.init

/-- The values printed under "Traffic Statistics"; an absent line is `none`. -/
structure Summary where
  packetsTransmitted : Nat
  packetsReceived : Nat
  packetsLost : Nat
  lossRate : Option Double
  totalThroughput : Double
  avgDelay : Option Double

/-- The summary printed after the loop (source lines 428-445). -/
def printSummary (t : Totals) : Summary :=
  { packetsTransmitted := t.totalTx
    packetsReceived := t.totalRx
    packetsLost := sub64 t.totalTx t.totalRx
    lossRate :=
      if t.totalTx > 0 then
        some (Double.div (Double.mul (Double.ofNat (sub64 t.totalTx t.totalRx)) 100.0) t.totalTx)
      else none
    totalThroughput := t.totalThroughput
    avgDelay :=
      if t.flowCount > 0 then
        some (Double.mul (Double.div t.totalDelay t.flowCount) 1000)
      else none }

/-- The statistics section of `main` (source lines 409-445). -/
def statistics (simulationTime : ℚ) (stats : FlowMap) : Summary :=
  printSummary (statsLoop simulationTime stats)

/-- The expression `(totalTx - totalRx) * 100.0 / totalTx` of source line 435, evaluated in
binary64: the `uint64_t` difference is converted and multiplied by 100.0, `totalTx` is
converted, and the quotient is taken, each step rounded. -/
def lossRateValueBinary64 (totalTx totalRx : Nat) : Double :=
  Binary64.div (Binary64.mul (Binary64.ofUInt64 (sub64 totalTx totalRx)) 100.0)
    (Binary64.ofUInt64 totalTx)

/-- The command-line parameters of `main` (source lines 46-58). -/
structure Config where
  nTrafficSensors : Nat
  nGovtOffices : Nat
  nCitizens : Nat
  simulationTime : ℚ
  verbose : Bool
deriving DecidableEq

/-- The values the parameters have when no argument is given (source lines 46-50). -/
def Config.default : Config :=
  { nTrafficSensors := 8
    nGovtOffices := 3
    nCitizens := 10
    simulationTime := 30.0
    verbose := true }

/-- The applications `main` installs. -/
inductive App where
  | echoServer
  | sensorClient (i : Nat)
  | officeClient (i : Nat)
  | citizenClient (i : Nat)
deriving DecidableEq

/-- A timing request made by `main`, with its argument in seconds. -/
inductive Request where
  | start (app : App) (seconds : ℚ)
  | stop (app : App) (seconds : ℚ)
  | simulatorStop (seconds : ℚ)
deriving DecidableEq

/-- Start time of the echo server (source line 281). -/
def serverStart : ℚ := 1.0

/-- Start time of sensor client `i` (source line 295). -/
def sensorStart (i : Nat) : ℚ := 2.0 + i * 0.2

/-- Start time of office client `i` (source line 308). -/
def officeStart (i : Nat) : ℚ := 3.0 + i * 0.5

/-- Start time of citizen client `i` (source line 321). -/
def citizenStart (i : Nat) : ℚ := 4.0 + i * 0.3

/-- The two requests of one pass through a client loop. -/
def clientRequests (app : App) (start simulationTime : ℚ) : List Request :=
  [.start app start, .stop app simulationTime]

/-- The requests of the section "CONFIGURE APPLICATIONS", in program order
(source lines 279-323). -/
def configureApplications (cfg : Config) : List Request :=
  [.start .echoServer serverStart, .stop .echoServer cfg.simulationTime]
    ++ ((List.range cfg.nTrafficSensors).map
          (fun i => clientRequests (.sensorClient i) (sensorStart i) cfg.simulationTime)).flatten
    ++ ((List.range cfg.nGovtOffices).map
          (fun i => clientRequests (.officeClient i) (officeStart i) cfg.simulationTime)).flatten
    ++ ((List.range cfg.nCitizens).map
          (fun i => clientRequests (.citizenClient i) (citizenStart i) cfg.simulationTime)).flatten

/-- The third octet written into a generated subnet base: `i + 1` on `uint32_t`. -/
def thirdOctet (i : Nat) : Nat := (i + 1) % U32

/-- Subnet base of sensor link `i` (source lines 241-243). -/
def sensorSubnet (i : Nat) : String := "172.16." ++ toString (thirdOctet i) ++ ".0"

/-- Subnet base of office link `i` (source lines 250-252). -/
def officeSubnet (i : Nat) : String := "172.17." ++ toString (thirdOctet i) ++ ".0"

/-- The subnet bases written as literals (source lines 227-235 and 257-261). -/
def fixedBases : List String :=
  ["10.1.1.0", "10.2.1.0", "10.2.2.0", "10.2.3.0", "192.168.1.0", "192.168.2.0"]

/-- Value of a string of decimal digits. -/
def decimalValue (cs : List Char) : Nat :=
  cs.foldl (fun acc c => acc * 10 + (c.toNat - 48)) 0

/-! ## The quantities the summary is compared with -/

/-- Sum of `txPackets` over all flows. -/
def sumTx (stats : FlowMap) : Nat := (stats.map (fun kv => kv.2.txPackets)).sum

/-- Sum of `rxPackets` over all flows. -/
def sumRx (stats : FlowMap) : Nat := (stats.map (fun kv => kv.2.rxPackets)).sum

/-- Total received bits of all flows. -/
def totalRxBits (stats : FlowMap) : Nat := (stats.map (fun kv => kv.2.rxBytes * 8)).sum

/-- The flows with at least one received packet. -/
def receivingFlows (stats : FlowMap) : List FlowStats :=
  (stats.map (fun kv => kv.2)).filter (fun f => f.rxPackets > 0)

/-- A flow's own mean delay, in seconds. -/
def meanDelay (f : FlowStats) : ℚ := f.delaySum.GetSeconds / f.rxPackets

/-- Total delay of all flows divided by the total of received packets, in milliseconds. -/
def flatAverageDelayMs (stats : FlowMap) : ℚ :=
  (stats.map (fun kv => kv.2.delaySum.GetSeconds)).sum / (sumRx stats : ℚ) * 1000

/-! ## Sample inputs -/

/-- One flow of ten 512-byte packets, all received 5 ms after being sent. -/
def sampleFlow : FlowStats :=
  { txPackets := 10, rxPackets := 10, rxBytes := 10 * 512, delaySum := ⟨0.05⟩ }

/-- A flow none of whose three packets arrived. -/
def lostFlow : FlowStats :=
  { txPackets := 3, rxPackets := 0, rxBytes := 0, delaySum := ⟨0⟩ }

/-- A flow of one packet that took one second. -/
def slowFlow : FlowStats :=
  { txPackets := 1, rxPackets := 1, rxBytes := 512, delaySum := ⟨1⟩ }

/-- A map with one fully received flow. -/
def sampleStats : FlowMap := [(1, sampleFlow)]

/-- A map with a received flow, a lost flow and a slow flow. -/
def mixedStats : FlowMap := [(1, sampleFlow), (2, lostFlow), (3, slowFlow)]

/-- A map whose only flow received nothing. -/
def lostStats : FlowMap := [(1, lostFlow)]

end CommunityCloudWAN

namespace CommunityCloudWAN

/-! ## The loop, field by field -/

theorem loopBody_totalTx (s : ℚ) (t : Totals) (f : FlowStats) :
    (loopBody s t f).totalTx = (t.totalTx + f.txPackets) % U64 := by
  unfold loopBody
  split <;> rfl

theorem loopBody_totalRx (s : ℚ) (t : Totals) (f : FlowStats) :
    (loopBody s t f).totalRx = (t.totalRx + f.rxPackets) % U64 := by
  unfold loopBody
  split <;> rfl

theorem loopBody_totalThroughput (s : ℚ) (t : Totals) (f : FlowStats) :
    (loopBody s t f).totalThroughput =
      Double.add t.totalThroughput
        (Double.div (Double.div (Double.mul (Double.ofNat f.rxBytes) 8.0) s) 1000.0) := by
  unfold loopBody
  split <;> rfl

theorem loopBody_flowCount (s : ℚ) (t : Totals) (f : FlowStats) :
    (loopBody s t f).flowCount =
      if f.rxPackets > 0 then (t.flowCount + 1) % U32 else t.flowCount := by
  unfold loopBody
  split <;> rfl

theorem loopBody_totalDelay (s : ℚ) (t : Totals) (f : FlowStats) :
    (loopBody s t f).totalDelay =
      if f.rxPackets > 0 then
        Double.add t.totalDelay (Double.div (.finite f.delaySum.GetSeconds) f.rxPackets)
      else t.totalDelay := by
  unfold loopBody
  split <;> rfl

theorem foldl_totalTx (s : ℚ) (stats : FlowMap) (t : Totals) (ht : t.totalTx < U64) :
    (stats.foldl (fun t kv => loopBody s t kv.2) t).totalTx = (t.totalTx + sumTx stats) % U64 := by
  induction stats generalizing t with
  | nil => simp [sumTx, Nat.mod_eq_of_lt ht]
  | cons kv rest ih =>
    have hpos : 0 < U64 := by unfold U64; positivity
    rw [List.foldl_cons, ih _ (by rw [loopBody_totalTx]; exact Nat.mod_lt _ hpos),
      loopBody_totalTx]
    simp only [sumTx, List.map_cons, List.sum_cons]
    rw [Nat.add_mod, Nat.mod_mod, ← Nat.add_mod, Nat.add_assoc]

theorem foldl_totalRx (s : ℚ) (stats : FlowMap) (t : Totals) (ht : t.totalRx < U64) :
    (stats.foldl (fun t kv => loopBody s t kv.2) t).totalRx = (t.totalRx + sumRx stats) % U64 := by
  induction stats generalizing t with
  | nil => simp [sumRx, Nat.mod_eq_of_lt ht]
  | cons kv rest ih =>
    have hpos : 0 < U64 := by unfold U64; positivity
    rw [List.foldl_cons, ih _ (by rw [loopBody_totalRx]; exact Nat.mod_lt _ hpos),
      loopBody_totalRx]
    simp only [sumRx, List.map_cons, List.sum_cons]
    rw [Nat.add_mod, Nat.mod_mod, ← Nat.add_mod, Nat.add_assoc]

theorem receivingFlows_cons (kv : FlowId × FlowStats) (rest : FlowMap) :
    receivingFlows (kv :: rest) =
      if kv.2.rxPackets > 0 then kv.2 :: receivingFlows rest else receivingFlows rest := by
  unfold receivingFlows
  by_cases h : kv.2.rxPackets > 0 <;> simp [List.filter_cons, h]

theorem foldl_flowCount (s : ℚ) (stats : FlowMap) (t : Totals) (ht : t.flowCount < U32) :
    (stats.foldl (fun t kv => loopBody s t kv.2) t).flowCount =
      (t.flowCount + (receivingFlows stats).length) % U32 := by
  induction stats generalizing t with
  | nil => simp [receivingFlows, Nat.mod_eq_of_lt ht]
  | cons kv rest ih =>
    have hpos : 0 < U32 := by unfold U32; positivity
    have hlt : (loopBody s t kv.2).flowCount < U32 := by
      rw [loopBody_flowCount]
      split
      · exact Nat.mod_lt _ hpos
      · exact ht
    rw [List.foldl_cons, ih _ hlt, loopBody_flowCount, receivingFlows_cons]
    by_cases h : kv.2.rxPackets > 0
    · simp only [h, if_true, List.length_cons]
      rw [Nat.add_mod, Nat.mod_mod, ← Nat.add_mod]
      congr 1
      omega
    · simp only [h, if_false]

theorem foldl_totalDelay (s : ℚ) (stats : FlowMap) (t : Totals) (d : ℚ)
    (ht : t.totalDelay = .finite d) :
    (stats.foldl (fun t kv => loopBody s t kv.2) t).totalDelay =
      .finite (d + ((receivingFlows stats).map meanDelay).sum) := by
  induction stats generalizing t d with
  | nil => simp [receivingFlows, ht]
  | cons kv rest ih =>
    rw [List.foldl_cons, receivingFlows_cons]
    by_cases h : kv.2.rxPackets > 0
    · have hne : ((kv.2.rxPackets : ℕ) : ℚ) ≠ 0 := by
        exact_mod_cast Nat.pos_iff_ne_zero.mp h
      rw [ih _ (d + meanDelay kv.2)]
      · simp only [h, if_true, List.map_cons, List.sum_cons, add_assoc]
      · rw [loopBody_totalDelay, ht]
        simp [h, Double.add, Double.div, hne, meanDelay]
    · rw [ih _ d]
      · simp only [h, if_false]
      · rw [loopBody_totalDelay, ht]
        simp [h]

theorem foldl_totalThroughput (s : ℚ) (hs : s ≠ 0) (stats : FlowMap) (t : Totals) (a : ℚ)
    (ht : t.totalThroughput = .finite a) :
    (stats.foldl (fun t kv => loopBody s t kv.2) t).totalThroughput =
      .finite (a + (totalRxBits stats : ℚ) / s / 1000) := by
  induction stats generalizing t a with
  | nil => simp [totalRxBits, ht]
  | cons kv rest ih =>
    rw [List.foldl_cons, ih _ (a + (kv.2.rxBytes : ℚ) * 8 / s / 1000)]
    · simp only [totalRxBits, List.map_cons, List.sum_cons]
      congr 1
      push_cast
      ring
    · rw [loopBody_totalThroughput, ht]
      simp only [Double.ofNat, Double.mul, Double.div, Double.add, hs, if_false]
      norm_num

theorem U64_pos : 0 < U64 := by unfold U64; positivity

theorem U32_pos : 0 < U32 := by unfold U32; positivity

theorem statsLoop_totalTx (s : ℚ) (stats : FlowMap) :
    (statsLoop s stats).totalTx = sumTx stats % U64 := by
  unfold statsLoop
  rw [foldl_totalTx s stats Totals.init U64_pos]
  simp [Totals.init]

theorem statsLoop_totalRx (s : ℚ) (stats : FlowMap) :
    (statsLoop s stats).totalRx = sumRx stats % U64 := by
  unfold statsLoop
  rw [foldl_totalRx s stats Totals.init U64_pos]
  simp [Totals.init]

theorem statsLoop_flowCount (s : ℚ) (stats : FlowMap) :
    (statsLoop s stats).flowCount = (receivingFlows stats).length % U32 := by
  unfold statsLoop
  rw [foldl_flowCount s stats Totals.init U32_pos]
  simp [Totals.init]

theorem statsLoop_totalDelay (s : ℚ) (stats : FlowMap) :
    (statsLoop s stats).totalDelay = .finite (((receivingFlows stats).map meanDelay).sum) := by
  unfold statsLoop
  rw [foldl_totalDelay s stats Totals.init 0 rfl]
  simp

theorem statsLoop_totalThroughput (s : ℚ) (hs : s ≠ 0) (stats : FlowMap) :
    (statsLoop s stats).totalThroughput = .finite ((totalRxBits stats : ℚ) / s / 1000) := by
  unfold statsLoop
  rw [foldl_totalThroughput s hs stats Totals.init 0 rfl]
  simp

theorem sub64_of_le (a b : Nat) (hba : b ≤ a) (ha : a < U64) : sub64 a b = a - b := by
  unfold sub64
  have hb : b % U64 = b := Nat.mod_eq_of_lt (lt_of_le_of_lt hba ha)
  rw [hb]
  have h : a + U64 - b = (a - b) + U64 := by omega
  rw [h, Nat.add_mod_right]
  exact Nat.mod_eq_of_lt (lt_of_le_of_lt (Nat.sub_le a b) ha)

theorem sub64_int (a b : Nat) : ((sub64 a b : ℕ) : ℤ) = ((a : ℤ) - (b : ℤ)) % 2 ^ 64 := by
  unfold sub64 U64
  have hb : b % 2 ^ 64 < 2 ^ 64 := Nat.mod_lt _ (by positivity)
  have hle : b % 2 ^ 64 ≤ a + 2 ^ 64 := by omega
  push_cast [Nat.cast_sub hle]
  omega

theorem sumRx_le_sumTx (stats : FlowMap) (h : ∀ kv ∈ stats, kv.2.rxPackets ≤ kv.2.txPackets) :
    sumRx stats ≤ sumTx stats := by
  induction stats with
  | nil => simp [sumRx, sumTx]
  | cons kv rest ih =>
    have h1 := h kv (List.mem_cons_self _ _)
    have h2 := ih (fun x hx => h x (List.mem_cons_of_mem _ hx))
    simp only [sumRx, sumTx, List.map_cons, List.sum_cons] at *
    omega

theorem lossRate_finite (t : Totals) : (printSummary t).lossRate ≠ some .nonFinite := by
  unfold printSummary
  by_cases h : t.totalTx > 0
  · have hne : ((t.totalTx : ℕ) : ℚ) ≠ 0 := by exact_mod_cast Nat.pos_iff_ne_zero.mp h
    simp [h, Double.ofNat, Double.mul, Double.div, hne]
  · simp [h]

/-! ## Packet totals and loss -/

/-- C1: the reported totals are the sums of `txPackets` and of `rxPackets` over all flows,
reduced modulo `2^64`; "Packets Lost" is their difference in `uint64_t` arithmetic, that is the
difference of the sums modulo `2^64`; and it is the exact difference whenever the total
received does not exceed the total transmitted. -/
theorem packetsLost_eq_transmitted_sub_received (s : ℚ) (stats : FlowMap) :
    (statistics s stats).packetsTransmitted = sumTx stats % 2 ^ 64 ∧
    (statistics s stats).packetsReceived = sumRx stats % 2 ^ 64 ∧
    (((statistics s stats).packetsLost : ℕ) : ℤ)
      = ((sumTx stats : ℤ) - (sumRx stats : ℤ)) % 2 ^ 64 ∧
    ((statistics s stats).packetsReceived ≤ (statistics s stats).packetsTransmitted →
      (statistics s stats).packetsLost
        = (statistics s stats).packetsTransmitted - (statistics s stats).packetsReceived) := by
  have htx : (statistics s stats).packetsTransmitted = sumTx stats % 2 ^ 64 :=
    statsLoop_totalTx s stats
  have hrx : (statistics s stats).packetsReceived = sumRx stats % 2 ^ 64 :=
    statsLoop_totalRx s stats
  have hlost : (statistics s stats).packetsLost
      = sub64 (statistics s stats).packetsTransmitted (statistics s stats).packetsReceived := rfl
  refine ⟨htx, hrx, ?_, ?_⟩
  · rw [hlost, sub64_int, htx, hrx]
    push_cast
    omega
  · intro hle
    rw [hlost]
    apply sub64_of_le _ _ hle
    rw [htx]
    exact Nat.mod_lt _ (by positivity)

/-- Witness for C1 on a map with a lost flow: 11 received out of 14 transmitted, 3 lost. -/
theorem packetsLost_eq_transmitted_sub_received_witness :
    (statistics 30 mixedStats).packetsReceived ≤ (statistics 30 mixedStats).packetsTransmitted ∧
    (statistics 30 mixedStats).packetsLost
      = (statistics 30 mixedStats).packetsTransmitted
        - (statistics 30 mixedStats).packetsReceived :=
  ⟨by decide, (packetsLost_eq_transmitted_sub_received 30 mixedStats).2.2.2 (by decide)⟩

/-- C2, as stated, fails on the empty map: no flow transmitted anything, and the summary
has no loss-rate value at all, so it does not report the value 0. -/
theorem lossRate_zero_counterexample :
    sumTx [] = 0 ∧ (statistics 30 []).lossRate ≠ some (.finite 0) := by
  decide

/-- C2, amended: when the total transmitted packet count is 0, the loss-rate line is left
out, so no loss rate is computed and nothing is divided; and whenever a loss rate is printed
it is a finite number, so the division was not by zero. -/
theorem lossRate_absent_of_no_transmission (s : ℚ) (stats : FlowMap)
    (h : sumTx stats % 2 ^ 64 = 0) :
    (statistics s stats).lossRate = none ∧
    ∀ stats2 : FlowMap, (statistics s stats2).lossRate ≠ some .nonFinite := by
  constructor
  · have htx : (statsLoop s stats).totalTx = 0 := by
      rw [statsLoop_totalTx]
      exact h
    simp [statistics, printSummary, htx]
  · intro stats2
    exact lossRate_finite _

/-- Witness for the amended C2 on the empty map. -/
theorem lossRate_absent_of_no_transmission_witness :
    sumTx [] % 2 ^ 64 = 0 ∧ (statistics 30 []).lossRate = none :=
  ⟨by decide, (lossRate_absent_of_no_transmission 30 [] (by decide)).1⟩

/-- C6: when every flow received at most what it transmitted and the sum of the transmitted
counts fits in `uint64_t`, the totals satisfy `totalRx <= totalTx`, they are the exact sums,
"Packets Lost" is the exact difference, and the loss rate (printed when `totalTx > 0`) is
computed from that exact difference. -/
theorem totalRx_le_totalTx (s : ℚ) (stats : FlowMap)
    (hflow : ∀ kv ∈ stats, kv.2.rxPackets ≤ kv.2.txPackets)
    (hfit : sumTx stats < 2 ^ 64) :
    (statistics s stats).packetsReceived ≤ (statistics s stats).packetsTransmitted ∧
    (statistics s stats).packetsTransmitted = sumTx stats ∧
    (statistics s stats).packetsReceived = sumRx stats ∧
    (statistics s stats).packetsLost = sumTx stats - sumRx stats ∧
    (statistics s stats).packetsLost + (statistics s stats).packetsReceived
      = (statistics s stats).packetsTransmitted ∧
    (0 < sumTx stats →
      (statistics s stats).lossRate
        = some (.finite (((sumTx stats : ℚ) - (sumRx stats : ℚ)) * 100 / (sumTx stats : ℚ)))) := by
  have hle : sumRx stats ≤ sumTx stats := sumRx_le_sumTx stats hflow
  have htx : (statsLoop s stats).totalTx = sumTx stats := by
    rw [statsLoop_totalTx]
    exact Nat.mod_eq_of_lt hfit
  have hrx : (statsLoop s stats).totalRx = sumRx stats := by
    rw [statsLoop_totalRx]
    exact Nat.mod_eq_of_lt (lt_of_le_of_lt hle hfit)
  have hsub : sub64 (sumTx stats) (sumRx stats) = sumTx stats - sumRx stats :=
    sub64_of_le _ _ hle hfit
  refine ⟨?_, ?_, ?_, ?_, ?_, ?_⟩
  · show (statsLoop s stats).totalRx ≤ (statsLoop s stats).totalTx
    rw [htx, hrx]
    exact hle
  · exact htx
  · exact hrx
  · show sub64 (statsLoop s stats).totalTx (statsLoop s stats).totalRx = _
    rw [htx, hrx, hsub]
  · show sub64 (statsLoop s stats).totalTx (statsLoop s stats).totalRx
      + (statsLoop s stats).totalRx = (statsLoop s stats).totalTx
    rw [htx, hrx, hsub]
    omega
  · intro hpos
    have hne : ((sumTx stats : ℕ) : ℚ) ≠ 0 := by exact_mod_cast Nat.pos_iff_ne_zero.mp hpos
    simp only [statistics, printSummary, htx, hrx, hsub, gt_iff_lt, hpos, if_true,
      Double.ofNat, Double.mul, Double.div, hne, if_false, Nat.cast_sub hle]
    norm_num

/-- Witness for C6 on a map with a lost flow. -/
theorem totalRx_le_totalTx_witness :
    (∀ kv ∈ mixedStats, kv.2.rxPackets ≤ kv.2.txPackets) ∧ sumTx mixedStats < 2 ^ 64 ∧
    (statistics 30 mixedStats).packetsReceived ≤ (statistics 30 mixedStats).packetsTransmitted :=
  ⟨by decide, by decide, (totalRx_le_totalTx 30 mixedStats (by decide) (by decide)).1⟩

theorem roundHalfEven_intCast (k : ℤ) : roundHalfEven (k : ℚ) = k := by
  unfold roundHalfEven
  simp

theorem two_zpow_pos (e : ℤ) : (0 : ℚ) < 2 ^ e := zpow_pos (by norm_num) e

theorem binary64Exponent_eq {x : ℚ} {e : ℤ} (he : -1074 ≤ e)
    (h1 : (2 : ℚ) ^ (52 : ℤ) ≤ x / 2 ^ e) (h2 : x / 2 ^ e < 2 ^ (53 : ℤ)) :
    binary64Exponent x = e := by
  have hpos : 0 < x := by
    have : (0 : ℚ) < x / 2 ^ e := lt_of_lt_of_le (two_zpow_pos _) h1
    exact (div_pos_iff_of_pos_right (two_zpow_pos e)).mp this
  rw [le_div_iff₀ (two_zpow_pos _), ← zpow_add₀ (by norm_num : (2 : ℚ) ≠ 0)] at h1
  rw [div_lt_iff₀ (two_zpow_pos _), ← zpow_add₀ (by norm_num : (2 : ℚ) ≠ 0)] at h2
  have h3 : 52 + e ≤ Int.log 2 x := by
    rw [← Int.zpow_le_iff_le_log (by norm_num) hpos, Nat.cast_ofNat]
    exact h1
  have h4 : Int.log 2 x < 53 + e := by
    rw [← Int.lt_zpow_iff_log_lt (by norm_num) hpos, Nat.cast_ofNat]
    exact h2
  unfold binary64Exponent
  rw [max_eq_left (by omega)]
  omega

theorem roundMagnitude_eq {x : ℚ} {e : ℤ} (he : -1074 ≤ e)
    (h1 : (2 : ℚ) ^ (52 : ℤ) ≤ x / 2 ^ e) (h2 : x / 2 ^ e < 2 ^ (53 : ℤ)) :
    roundMagnitude x = (roundHalfEven (x / 2 ^ e) : ℚ) * 2 ^ e := by
  unfold roundMagnitude
  rw [binary64Exponent_eq he h1 h2]

theorem roundMagnitude_representable (M e : ℤ) (he : -1074 ≤ e)
    (h1 : 2 ^ 52 ≤ M) (h2 : M < 2 ^ 53) :
    roundMagnitude ((M : ℚ) * 2 ^ e) = (M : ℚ) * 2 ^ e := by
  have hs : (M : ℚ) * 2 ^ e / 2 ^ e = (M : ℚ) := by
    field_simp
  have h1q : (2 : ℚ) ^ (52 : ℤ) ≤ (M : ℚ) := by
    have : ((2 ^ 52 : ℤ) : ℚ) ≤ (M : ℚ) := by exact_mod_cast h1
    norm_num at this ⊢
    exact this
  have h2q : (M : ℚ) < 2 ^ (53 : ℤ) := by
    have : (M : ℚ) < ((2 ^ 53 : ℤ) : ℚ) := by exact_mod_cast h2
    norm_num at this ⊢
    exact this
  rw [roundMagnitude_eq he (by rw [hs]; exact h1q) (by rw [hs]; exact h2q), hs,
    roundHalfEven_intCast]

theorem roundBinary64_of_nonneg {x : ℚ} (hx : 0 ≤ x) (hlt : roundMagnitude x < 2 ^ 1024) :
    roundBinary64 x = .finite (roundMagnitude x) := by
  unfold roundBinary64
  rw [abs_of_nonneg hx, if_neg (not_le.mpr hlt), if_neg (not_lt.mpr hx)]

theorem lossRateValueBinary64_eq (tx rx : Nat) (dx p dt q : ℚ)
    (hdx : roundMagnitude ((sub64 tx rx : ℕ) : ℚ) = dx) (hdt : roundMagnitude (tx : ℚ) = dt)
    (hp : roundMagnitude (dx * 100) = p) (hq : roundMagnitude (p / dt) = q)
    (hdx0 : 0 ≤ dx) (hp0 : 0 ≤ p) (hdt0 : 0 < dt) (hpfin : p < 2 ^ 1024) (hqfin : q < 2 ^ 1024) :
    lossRateValueBinary64 tx rx = .finite q := by
  unfold lossRateValueBinary64 Binary64.ofUInt64 Binary64.mul
  have h100 : (100.0 : ℚ) = 100 := by norm_num
  have hP0 : 0 ≤ dx * 100 := mul_nonneg hdx0 (by norm_num)
  rw [hdx, hdt, h100, roundBinary64_of_nonneg hP0 (by rw [hp]; exact hpfin), hp]
  unfold Binary64.div
  simp only [hdt0.ne', if_false]
  rw [roundBinary64_of_nonneg (div_nonneg hp0 hdt0.le) (by rw [hq]; exact hqfin), hq]

theorem roundHalfEven_of_lt_half (f : ℤ) (x : ℚ) (h1 : (f : ℚ) ≤ x) (h2 : x < f + 1 / 2) :
    roundHalfEven x = f := by
  have hf : ⌊x⌋ = f := by
    rw [Int.floor_eq_iff]
    constructor <;> linarith
  unfold roundHalfEven
  rw [hf, if_pos (by linarith)]

theorem roundHalfEven_tie_even (f : ℤ) (heven : f % 2 = 0) :
    roundHalfEven ((f : ℚ) + 1 / 2) = f := by
  have hf : ⌊(f : ℚ) + 1 / 2⌋ = f := by
    rw [Int.floor_eq_iff]
    constructor <;> linarith
  unfold roundHalfEven
  rw [hf, if_neg (by norm_num), if_neg (by norm_num), if_pos heven]

theorem lossRateValueBinary64_three_received :
    lossRateValueBinary64 (2 ^ 54) 3 = .finite (100 - 2 ^ (-45 : ℤ)) := by
  have hsub : sub64 (2 ^ 54) 3 = 2 ^ 54 - 3 := by
    unfold sub64 U64
    norm_num
  have hdx : roundMagnitude (((2 ^ 54 - 3 : ℕ)) : ℚ) = 2 ^ 54 - 4 := by
    rw [@roundMagnitude_eq _ (1) (by norm_num) (by norm_num) (by norm_num)]
    have hm : (((2 ^ 54 - 3 : ℕ)) : ℚ) / 2 ^ (1 : ℤ) = ((2 ^ 53 - 2 : ℤ) : ℚ) + 1 / 2 := by
      norm_num
    rw [hm, roundHalfEven_tie_even _ (by decide)]
    norm_num
  have hdt : roundMagnitude (((2 ^ 54 : ℕ)) : ℚ) = 2 ^ 54 := by
    have h := roundMagnitude_representable (2 ^ 52) 2 (by norm_num) (by norm_num) (by norm_num)
    norm_num at h ⊢
    exact h
  have hp : roundMagnitude (((2 : ℚ) ^ 54 - 4) * 100) = 1801439850948197888 := by
    rw [@roundMagnitude_eq _ (8) (by norm_num) (by norm_num) (by norm_num),
      roundHalfEven_of_lt_half 7036874417766398 _ (by norm_num) (by norm_num)]
    norm_num
  have hq : roundMagnitude ((1801439850948197888 : ℚ) / 2 ^ 54) = 100 - 2 ^ (-45 : ℤ) := by
    have h := roundMagnitude_representable (25 * 2 ^ 48 - 2) (-46) (by norm_num) (by norm_num)
      (by norm_num)
    norm_num at h ⊢
    exact h
  exact lossRateValueBinary64_eq _ _ _ _ _ _ (by rw [hsub]; exact hdx) hdt hp hq
    (by norm_num) (by norm_num) (by norm_num) (by norm_num) (by norm_num)

/-! ## Binary64 rounding: the loss rate of a summary -/

/-- C3: for a positive `simulationTime` the reported total throughput, accumulated flow by flow
as `rxBytes * 8 / simulationTime / 1000`, is the total of received bits divided by
`simulationTime` and by 1000 (kbps); one flow with `rxBytes = 10 * 512` over 30 seconds gives
`(10 * 512 * 8) / 30000`. -/
theorem totalThroughput_eq (simulationTime : ℚ) (stats : FlowMap) (hpos : 0 < simulationTime) :
    (statistics simulationTime stats).totalThroughput
      = .finite ((totalRxBits stats : ℚ) / simulationTime / 1000) ∧
    ∀ (k : FlowId) (f : FlowStats), f.rxBytes = 10 * 512 →
      (statistics 30 [(k, f)]).totalThroughput = .finite ((10 * 512 * 8) / 30000) := by
  constructor
  · exact statsLoop_totalThroughput simulationTime hpos.ne' stats
  · intro k f hf
    have h := statsLoop_totalThroughput 30 (by norm_num) [(k, f)]
    show (statsLoop 30 [(k, f)]).totalThroughput = _
    rw [h]
    simp only [totalRxBits, List.map_cons, List.map_nil, List.sum_cons, List.sum_nil, hf]
    norm_num

/-- Witness for C3 on the one-flow map at 30 seconds. -/
theorem totalThroughput_eq_witness :
    (0 : ℚ) < 30 ∧
    (statistics 30 sampleStats).totalThroughput
      = .finite ((totalRxBits sampleStats : ℚ) / 30 / 1000) :=
  ⟨by norm_num, (totalThroughput_eq 30 sampleStats (by norm_num)).1⟩

/-! ## Average delay -/

theorem receivingFlows_filter (stats : FlowMap) :
    receivingFlows (stats.filter (fun kv => kv.2.rxPackets > 0)) = receivingFlows stats := by
  induction stats with
  | nil => rfl
  | cons kv rest ih =>
    by_cases h : kv.2.rxPackets > 0
    · rw [List.filter_cons_of_pos (by simpa using h), receivingFlows_cons, receivingFlows_cons, ih]
    · rw [List.filter_cons_of_neg (by simpa using h), receivingFlows_cons, ih]
      simp only [h, if_false]

theorem receivingFlows_pos (stats : FlowMap) (h : ∃ kv ∈ stats, kv.2.rxPackets > 0) :
    0 < (receivingFlows stats).length := by
  obtain ⟨kv, hmem, hrx⟩ := h
  have hin : kv.2 ∈ receivingFlows stats := by
    unfold receivingFlows
    rw [List.mem_filter]
    exact ⟨List.mem_map_of_mem _ hmem, by simpa using hrx⟩
  exact List.length_pos_of_mem hin

theorem receivingFlows_eq_nil (stats : FlowMap) (h : ∀ kv ∈ stats, kv.2.rxPackets = 0) :
    receivingFlows stats = [] := by
  unfold receivingFlows
  rw [List.filter_eq_nil_iff]
  intro f hf
  obtain ⟨kv, hmem, rfl⟩ := List.mem_map.mp hf
  simp [h kv hmem]

theorem avgDelay_eq (s : ℚ) (stats : FlowMap) :
    (statistics s stats).avgDelay =
      if (receivingFlows stats).length % U32 > 0 then
        some (.finite (((receivingFlows stats).map meanDelay).sum
          / (((receivingFlows stats).length % U32 : ℕ) : ℚ) * 1000))
      else none := by
  unfold statistics printSummary
  simp only [statsLoop_flowCount, statsLoop_totalDelay]
  by_cases h : (receivingFlows stats).length % U32 > 0
  · have hne : (((receivingFlows stats).length % U32 : ℕ) : ℚ) ≠ 0 := by
      exact_mod_cast Nat.pos_iff_ne_zero.mp h
    simp only [h, if_true, Double.div, hne, if_false, Double.mul]
  · simp only [h, if_false]

/-- C4: when at least one flow received a packet (and the flows that did are fewer than
`2^32`, the range of the `uint32_t` counter `flowCount`), the reported average delay is 1000
times the arithmetic mean, over exactly the flows with `rxPackets > 0`, of each such flow's own
mean delay `delaySum / rxPackets`; dropping the flows with `rxPackets = 0` from the map leaves
it unchanged; and it is not the total delay divided by the total of received packets, as the
three-flow sample map shows. -/
theorem avgDelay_mean_of_flow_means (s : ℚ) (stats : FlowMap)
    (hrecv : ∃ kv ∈ stats, kv.2.rxPackets > 0)
    (hcount : (receivingFlows stats).length < 2 ^ 32) :
    (statistics s stats).avgDelay
      = some (.finite (1000 * (((receivingFlows stats).map meanDelay).sum
          / ((receivingFlows stats).length : ℚ)))) ∧
    (statistics s (stats.filter (fun kv => kv.2.rxPackets > 0))).avgDelay
      = (statistics s stats).avgDelay ∧
    (statistics s mixedStats).avgDelay ≠ some (.finite (flatAverageDelayMs mixedStats)) := by
  refine ⟨?_, ?_, ?_⟩
  · have hmod : (receivingFlows stats).length % U32 = (receivingFlows stats).length :=
      Nat.mod_eq_of_lt hcount
    rw [avgDelay_eq, hmod, if_pos (receivingFlows_pos stats hrecv), mul_comm]
  · rw [avgDelay_eq, avgDelay_eq, receivingFlows_filter]
  · rw [avgDelay_eq]
    have hl : receivingFlows mixedStats = [sampleFlow, slowFlow] := rfl
    rw [hl]
    norm_num [U32, meanDelay, sampleFlow, slowFlow, flatAverageDelayMs, mixedStats, lostFlow,
      sumRx]

/-- Witness for C4 on the three-flow sample map: two flows received packets. -/
theorem avgDelay_mean_of_flow_means_witness :
    (∃ kv ∈ mixedStats, kv.2.rxPackets > 0) ∧ (receivingFlows mixedStats).length < 2 ^ 32 ∧
    (statistics 30 mixedStats).avgDelay
      = some (.finite (1000 * (((receivingFlows mixedStats).map meanDelay).sum
          / ((receivingFlows mixedStats).length : ℚ)))) :=
  ⟨by decide, by decide, (avgDelay_mean_of_flow_means 30 mixedStats (by decide) (by decide)).1⟩

/-- C5, as stated, fails on a map whose only flow received nothing: the summary has no
average-delay value at all, so it does not report the value 0. -/
theorem avgDelay_zero_counterexample :
    (∀ kv ∈ lostStats, kv.2.rxPackets = 0) ∧
    (statistics 30 lostStats).avgDelay ≠ some (.finite 0) := by
  decide

/-- C5, amended: when no flow received a packet, or there are no flows, the average-delay
line is left out, so no average is computed and nothing is divided; and whenever an average
delay is printed it is a finite number, so the division was not by zero. -/
theorem avgDelay_absent_of_no_reception (s : ℚ) (stats : FlowMap)
    (h : ∀ kv ∈ stats, kv.2.rxPackets = 0) :
    (statistics s stats).avgDelay = none ∧
    ∀ stats2 : FlowMap, (statistics s stats2).avgDelay ≠ some .nonFinite := by
  constructor
  · rw [avgDelay_eq, receivingFlows_eq_nil stats h]
    simp
  · intro stats2
    rw [avgDelay_eq]
    split <;> simp

/-- Witness for the amended C5 on a map whose only flow received nothing. -/
theorem avgDelay_absent_of_no_reception_witness :
    (∀ kv ∈ lostStats, kv.2.rxPackets = 0) ∧ (statistics 30 lostStats).avgDelay = none :=
  ⟨by decide, (avgDelay_absent_of_no_reception 30 lostStats (by decide)).1⟩

/-! ## Start and stop requests -/

theorem mem_clientLoop (n : Nat) (mk : Nat → App) (st : Nat → ℚ) (stop : ℚ) (r : Request) :
    r ∈ ((List.range n).map (fun i => clientRequests (mk i) (st i) stop)).flatten ↔
      ∃ i, i < n ∧ (r = .start (mk i) (st i) ∨ r = .stop (mk i) stop) := by
  simp only [clientRequests, List.mem_flatten, List.mem_map, List.mem_range,
    exists_exists_and_eq_and, List.mem_cons, List.mem_singleton, List.not_mem_nil, or_false]

theorem mem_configureApplications (cfg : Config) (r : Request) :
    r ∈ configureApplications cfg ↔
      r = .start .echoServer serverStart ∨ r = .stop .echoServer cfg.simulationTime ∨
      (∃ i, i < cfg.nTrafficSensors ∧
        (r = .start (.sensorClient i) (sensorStart i)
          ∨ r = .stop (.sensorClient i) cfg.simulationTime)) ∨
      (∃ i, i < cfg.nGovtOffices ∧
        (r = .start (.officeClient i) (officeStart i)
          ∨ r = .stop (.officeClient i) cfg.simulationTime)) ∨
      (∃ i, i < cfg.nCitizens ∧
        (r = .start (.citizenClient i) (citizenStart i)
          ∨ r = .stop (.citizenClient i) cfg.simulationTime)) := by
  unfold configureApplications
  rw [List.mem_append, List.mem_append, List.mem_append, mem_clientLoop, mem_clientLoop,
    mem_clientLoop, List.mem_cons, List.mem_singleton]
  simp only [or_assoc]

/-- C9: every sensor, office and citizen client start time (`2.0 + 0.2 i`, `3.0 + 0.5 i`,
`4.0 + 0.3 i`) is strictly later than the echo server's start time 1.0 and strictly increasing
in the index within its role; these are the start times `main` requests; and with the default
parameters (8 sensors, 3 offices, 10 citizens, 30 seconds) every start time requested is
strictly earlier than the stop time `simulationTime`. -/
theorem client_start_times :
    serverStart = 1 ∧
    (∀ i : Nat, sensorStart i = 2 + 0.2 * i ∧ officeStart i = 3 + 0.5 * i
      ∧ citizenStart i = 4 + 0.3 * i) ∧
    (∀ i : Nat, serverStart < sensorStart i ∧ serverStart < officeStart i
      ∧ serverStart < citizenStart i) ∧
    (∀ i j : Nat, i < j → sensorStart i < sensorStart j ∧ officeStart i < officeStart j
      ∧ citizenStart i < citizenStart j) ∧
    (∀ (cfg : Config) (i : Nat),
      (i < cfg.nTrafficSensors →
        Request.start (.sensorClient i) (sensorStart i) ∈ configureApplications cfg) ∧
      (i < cfg.nGovtOffices →
        Request.start (.officeClient i) (officeStart i) ∈ configureApplications cfg) ∧
      (i < cfg.nCitizens →
        Request.start (.citizenClient i) (citizenStart i) ∈ configureApplications cfg)) ∧
    Config.default.nTrafficSensors = 8 ∧ Config.default.nGovtOffices = 3 ∧
    Config.default.nCitizens = 10 ∧ Config.default.simulationTime = 30 ∧
    (∀ (app : App) (t : ℚ), Request.start app t ∈ configureApplications Config.default →
      t < Config.default.simulationTime ∧
      Request.stop app Config.default.simulationTime
        ∈ configureApplications Config.default) := by
  refine ⟨by norm_num [serverStart], ?_, ?_, ?_, ?_, rfl, rfl, rfl, by norm_num [Config.default],
    ?_⟩
  · intro i
    refine ⟨?_, ?_, ?_⟩
    · unfold sensorStart
      ring
    · unfold officeStart
      ring
    · unfold citizenStart
      ring
  · intro i
    have hi : (0 : ℚ) ≤ (i : ℚ) := by positivity
    refine ⟨?_, ?_, ?_⟩
    · unfold serverStart sensorStart
      norm_num
      linarith
    · unfold serverStart officeStart
      norm_num
      linarith
    · unfold serverStart citizenStart
      norm_num
      linarith
  · intro i j hij
    have h : (i : ℚ) < (j : ℚ) := by exact_mod_cast hij
    refine ⟨?_, ?_, ?_⟩
    · unfold sensorStart
      norm_num
      linarith
    · unfold officeStart
      norm_num
      linarith
    · unfold citizenStart
      norm_num
      linarith
  · intro cfg i
    refine ⟨?_, ?_, ?_⟩
    · intro hi
      rw [mem_configureApplications]
      exact Or.inr (Or.inr (Or.inl ⟨i, hi, Or.inl rfl⟩))
    · intro hi
      rw [mem_configureApplications]
      exact Or.inr (Or.inr (Or.inr (Or.inl ⟨i, hi, Or.inl rfl⟩)))
    · intro hi
      rw [mem_configureApplications]
      exact Or.inr (Or.inr (Or.inr (Or.inr ⟨i, hi, Or.inl rfl⟩)))
  · intro app t hmem
    have h30 : Config.default.simulationTime = 30 := by norm_num [Config.default]
    rw [mem_configureApplications] at hmem ⊢
    rw [h30]
    rcases hmem with h | h | ⟨i, hi, h | h⟩ | ⟨i, hi, h | h⟩ | ⟨i, hi, h | h⟩
    · injection h with ha ht
      subst ha ht
      exact ⟨by norm_num [serverStart], Or.inr (Or.inl rfl)⟩
    · injection h
    · injection h with ha ht
      subst ha ht
      have hq : (i : ℚ) < 8 := by exact_mod_cast hi
      refine ⟨?_, Or.inr (Or.inr (Or.inl ⟨i, hi, Or.inr rfl⟩))⟩
      unfold sensorStart
      norm_num
      linarith
    · injection h
    · injection h with ha ht
      subst ha ht
      have hq : (i : ℚ) < 3 := by exact_mod_cast hi
      refine ⟨?_, Or.inr (Or.inr (Or.inr (Or.inl ⟨i, hi, Or.inr rfl⟩)))⟩
      unfold officeStart
      norm_num
      linarith
    · injection h
    · injection h with ha ht
      subst ha ht
      have hq : (i : ℚ) < 10 := by exact_mod_cast hi
      refine ⟨?_, Or.inr (Or.inr (Or.inr (Or.inr ⟨i, hi, Or.inr rfl⟩)))⟩
      unfold citizenStart
      norm_num
      linarith
    · injection h

/-! ## Subnet bases -/

theorem digitChar_toNat_sub (k : Nat) (hk : k < 10) : (Nat.digitChar k).toNat - 48 = k := by
  interval_cases k <;> rfl

theorem foldl_toDigitsCore (fuel : Nat) : ∀ (n : Nat) (ds : List Char), n < fuel →
    (Nat.toDigitsCore 10 fuel n ds).foldl (fun acc c => acc * 10 + (c.toNat - 48)) 0
      = ds.foldl (fun acc c => acc * 10 + (c.toNat - 48)) n := by
  induction fuel with
  | zero =>
    intro n ds h
    omega
  | succ fuel ih =>
    intro n ds h
    simp only [Nat.toDigitsCore]
    split
    · rw [List.foldl_cons, digitChar_toNat_sub _ (Nat.mod_lt _ (by norm_num))]
      congr 1
      omega
    · rw [ih (n / 10) _ (by omega), List.foldl_cons,
        digitChar_toNat_sub _ (Nat.mod_lt _ (by norm_num))]
      congr 1
      omega

theorem decimalValue_toDigits (n : Nat) : decimalValue (Nat.toDigits 10 n) = n := by
  unfold decimalValue Nat.toDigits
  rw [foldl_toDigitsCore (n + 1) n [] (Nat.lt_succ_self n)]
  rfl

theorem toDigits_injective (a b : Nat) (h : Nat.toDigits 10 a = Nat.toDigits 10 b) : a = b := by
  rw [← decimalValue_toDigits a, ← decimalValue_toDigits b, h]

theorem sensorSubnet_data (i : Nat) :
    (sensorSubnet i).data
      = ['1', '7', '2', '.', '1', '6', '.'] ++ (Nat.toDigits 10 (thirdOctet i) ++ ['.', '0']) := by
  unfold sensorSubnet
  rw [String.data_append, String.data_append, List.append_assoc]
  rfl

theorem officeSubnet_data (i : Nat) :
    (officeSubnet i).data
      = ['1', '7', '2', '.', '1', '7', '.'] ++ (Nat.toDigits 10 (thirdOctet i) ++ ['.', '0']) := by
  unfold officeSubnet
  rw [String.data_append, String.data_append, List.append_assoc]
  rfl

theorem thirdOctet_of_lt (i n : Nat) (hi : i < n) (hn : n < 2 ^ 32) : thirdOctet i = i + 1 := by
  unfold thirdOctet U32
  exact Nat.mod_eq_of_lt (by omega)

theorem sensorSubnet_injective (i j : Nat) (h : sensorSubnet i = sensorSubnet j) :
    thirdOctet i = thirdOctet j := by
  have hd := congrArg String.data h
  rw [sensorSubnet_data, sensorSubnet_data] at hd
  exact toDigits_injective _ _ (List.append_cancel_right (List.append_cancel_left hd))

theorem officeSubnet_injective (i j : Nat) (h : officeSubnet i = officeSubnet j) :
    thirdOctet i = thirdOctet j := by
  have hd := congrArg String.data h
  rw [officeSubnet_data, officeSubnet_data] at hd
  exact toDigits_injective _ _ (List.append_cancel_right (List.append_cancel_left hd))

theorem sensorSubnet_ne_of_second (i : Nat) (b : String) (c0 c1 : Char) (rest : List Char)
    (hb : b.data = c0 :: c1 :: rest) (hc : c1 ≠ '7') : sensorSubnet i ≠ b := by
  intro h
  have hd := congrArg String.data h
  rw [sensorSubnet_data, hb] at hd
  simp only [List.cons_append, List.cons.injEq] at hd
  exact hc hd.2.1.symm

/-- C10: for a configuration whose counts are `uint32_t` values, the subnet base of a link
index `i` is "172.16.(i+1).0" for sensors and "172.17.(i+1).0" for offices; the bases of two
different sensor indices differ, and likewise for offices; no sensor base equals an office base
or one of the six literal bases; and the third octet `i + 1` is at most 255 exactly when
`i <= 254`. -/
theorem subnet_bases_distinct (cfg : Config)
    (hs : cfg.nTrafficSensors < 2 ^ 32) (ho : cfg.nGovtOffices < 2 ^ 32) :
    (∀ i, i < cfg.nTrafficSensors → sensorSubnet i = "172.16." ++ toString (i + 1) ++ ".0") ∧
    (∀ i, i < cfg.nGovtOffices → officeSubnet i = "172.17." ++ toString (i + 1) ++ ".0") ∧
    (∀ i j, i < cfg.nTrafficSensors → j < cfg.nTrafficSensors → i ≠ j →
      sensorSubnet i ≠ sensorSubnet j) ∧
    (∀ i j, i < cfg.nGovtOffices → j < cfg.nGovtOffices → i ≠ j →
      officeSubnet i ≠ officeSubnet j) ∧
    (∀ i j, sensorSubnet i ≠ officeSubnet j) ∧
    (∀ i, sensorSubnet i ∉ fixedBases) ∧
    (∀ i, i < cfg.nTrafficSensors → (thirdOctet i ≤ 255 ↔ i ≤ 254)) ∧
    (∀ i, i < cfg.nGovtOffices → (thirdOctet i ≤ 255 ↔ i ≤ 254)) := by
  refine ⟨?_, ?_, ?_, ?_, ?_, ?_, ?_, ?_⟩
  · intro i hi
    unfold sensorSubnet
    rw [thirdOctet_of_lt i _ hi hs]
  · intro i hi
    unfold officeSubnet
    rw [thirdOctet_of_lt i _ hi ho]
  · intro i j hi hj hij h
    have h3 := sensorSubnet_injective i j h
    rw [thirdOctet_of_lt i _ hi hs, thirdOctet_of_lt j _ hj hs] at h3
    omega
  · intro i j hi hj hij h
    have h3 := officeSubnet_injective i j h
    rw [thirdOctet_of_lt i _ hi ho, thirdOctet_of_lt j _ hj ho] at h3
    omega
  · intro i j h
    have hd := congrArg String.data h
    rw [sensorSubnet_data, officeSubnet_data] at hd
    simp only [List.cons_append, List.cons.injEq] at hd
    exact absurd hd.2.2.2.2.2.1 (by decide)
  · intro i hmem
    simp only [fixedBases, List.mem_cons, List.mem_singleton, List.not_mem_nil, or_false] at hmem
    rcases hmem with h | h | h | h | h | h
    · exact sensorSubnet_ne_of_second i _ '1' '0' _ rfl (by decide) h
    · exact sensorSubnet_ne_of_second i _ '1' '0' _ rfl (by decide) h
    · exact sensorSubnet_ne_of_second i _ '1' '0' _ rfl (by decide) h
    · exact sensorSubnet_ne_of_second i _ '1' '0' _ rfl (by decide) h
    · exact sensorSubnet_ne_of_second i _ '1' '9' _ rfl (by decide) h
    · exact sensorSubnet_ne_of_second i _ '1' '9' _ rfl (by decide) h
  · intro i hi
    rw [thirdOctet_of_lt i _ hi hs]
    omega
  · intro i hi
    rw [thirdOctet_of_lt i _ hi ho]
    omega

/-- Witness for C10 at the default parameters: sensor links 0 and 1 get different bases. -/
theorem subnet_bases_distinct_witness :
    Config.default.nTrafficSensors < 2 ^ 32 ∧ Config.default.nGovtOffices < 2 ^ 32 ∧
    sensorSubnet 0 ≠ sensorSubnet 1 :=
  ⟨by decide, by decide,
    (subnet_bases_distinct Config.default (by decide) (by decide)).2.2.1 0 1
      (by decide) (by decide) (by decide)⟩

end CommunityCloudWAN
